import Mathlib

/-!
Verification development for the github-dashboard backend.

Shallow embedding of the conversational issue-drafting pipeline
(`services/ai_service.py`), the message sanitizer (`utils/text.py`) and the
HTTP handlers (`api/handlers/chat_handler.py`, `summary_handler.py`,
`prioritize_handler.py`).

Conventions:
- Python strings are Lean `String`s manipulated as `List Char`.
- Python `dict`s (issue drafts, tool arguments, the summary cache) are
  insertion-ordered association lists `List (String × _)`; assignment keeps
  an existing key in place and appends a new one, as CPython does.
- JSON leaf values appearing in drafts are the inductive `JVal`.
- Every external call (OpenAI model, GitHub fetch, cache write) is modelled
  by an oracle argument supplying that call's outcome, and each function
  additionally returns the list of collaborator `Effect`s it performed, in
  order, so "no further model call happens" is a provable statement.
- Regular-expression substitutions from `utils/text.py` are embedded as
  explicit scanners (`reSub`) with per-pattern matchers that mirror the
  backtracking behaviour of the concrete patterns in the source.
- All recursions use explicit fuel (always instantiated with the input
  length, which bounds every scan), keeping every definition executable.
-/

/-- Whitespace characters of Python `str.strip`/`\s` (ASCII range, which is
all the source ever feeds them). -/
def pyWsChar (c : Char) : Bool :=
  c = ' ' ∨ c = '\t' ∨ c = '\n' ∨ c = '\r' ∨ c = '\x0b' ∨ c = '\x0c'

/-- Python `str.strip()` on a character list. -/
def pyStripL (l : List Char) : List Char :=
  ((l.dropWhile pyWsChar).reverse.dropWhile pyWsChar).reverse

/-- Python `str.strip()`. -/
def pyStrip (s : String) : String := ⟨pyStripL s.data⟩

/-- Python `str.lower()` (ASCII case folding, as used on the inputs here). -/
def pyLower (s : String) : String := ⟨s.data.map Char.toLower⟩

/-- Python `needle in hay` substring test, on character lists. -/
def isSubChars (needle : List Char) : List Char → Bool
  | [] => needle.isEmpty
  | c :: rest => needle.isPrefixOf (c :: rest) || isSubChars needle rest

/-- Python `needle in hay` substring test. -/
def pyContains (hay needle : String) : Bool := isSubChars needle.data hay.data

/-- JSON-ish leaf value as it appears in parsed tool arguments and drafts. -/
inductive JVal where
  | str : String → JVal
  | arr : List String → JVal
  | num : Int → JVal
  | null : JVal
deriving DecidableEq, Repr

/-- Python truthiness of a `JVal`. -/
def JVal.truthy : JVal → Bool
  | .str s => s ≠ ""
  | .arr l => l ≠ []
  | .num n => n ≠ 0
  | .null => false

/-- Insertion-ordered string-keyed mapping: the embedding of a Python dict
whose values are `JVal`s (issue drafts, tool-call arguments). -/
abbrev PMap : Type := List (String × JVal)

/-- Python `d[k]` / `k in d` lookup. -/
def pmLookup : PMap → String → Option JVal
  | [], _ => none
  | (k0, v0) :: rest, k => if k0 = k then some v0 else pmLookup rest k

/-- Python `d[k] = v`: replace in place if present, else append. -/
def pmSet : PMap → String → JVal → PMap
  | [], k, v => [(k, v)]
  | (k0, v0) :: rest, k, v =>
      if k0 = k then (k0, v) :: rest else (k0, v0) :: pmSet rest k v

/-- One iteration of the `update_preview` merge loop in `chat_issue_creation`
(`ai_service.py` lines 278-284): update if the value is truthy, or if an
empty list fills a gap; otherwise keep the existing value unless the key is
absent, in which case the (falsy) value is stored anyway. -/
def mergeStep (pd : PMap) (kv : String × JVal) : PMap :=
  if kv.2.truthy ∨ (kv.2 = .arr [] ∧ pmLookup pd kv.1 = none) then
    pmSet pd kv.1 kv.2
  else if pmLookup pd kv.1 = none then
    pmSet pd kv.1 kv.2
  else pd

/-- The whole `for key, value in args.items()` merge of an `update_preview`
tool call into the working preview. -/
def mergePreview (pd : PMap) (args : PMap) : PMap := args.foldl mergeStep pd

/-- Collaborator actions a pipeline run can perform; functions return the
ordered list of the actions they actually performed. -/
inductive Effect where
  | model : Effect
  | sanitizer : Effect
  | mentionScan : Effect
  | prFetch : Effect
  | cacheWrite : Effect
deriving DecidableEq, Repr

/-- Keyword fast-path list of `llm_detect_readiness` (`ai_service.py` 26-42). -/
def ready_keywords : List String :=
  ["create the ticket", "make the ticket", "create the issue",
   "make the issue", "generate the ticket", "generate the issue",
   "i'm ready", "im ready", "ready to create", "looks good",
   "that's enough", "thats enough", "good enough", "let's create",
   "lets create"]

/-- Embedding of `llm_detect_readiness` (`ai_service.py` 17-77). The oracle
supplies the outcome of the single fallback model call; the returned list
records whether that call was performed. -/
def llm_detect_readiness (text : String) (oracle : Except Unit String) :
    Bool × List Effect :=
  if text = "" ∨ pyStrip text = "" then (false, [])
  else
    let textLower := pyLower text
    if ready_keywords.any (fun kw => pyContains textLower kw) then (true, [])
    else
      match oracle with
      | .ok response => ((pyLower (pyStrip response)).startsWith "yes", [.model])
      | .error _ =>
          (["ready", "create", "make"].any (fun p => pyContains textLower p),
           [.model])

/-- Result of `json.loads` on a model reply where the code only cares whether
it is a dict (of draft fields) or anything else. -/
inductive PyObj where
  | dict : PMap → PyObj
  | nondict : PyObj
deriving DecidableEq, Repr

/-- Embedding of `extract_issue_details_from_conversation` (`ai_service.py`
150-176). The prompt built from the last ten conversation turns only shapes
the model input, which the oracle abstracts; `.error` is the `except` branch.
Always performs exactly one model call. -/
def extract_issue_details_from_conversation (oracle : Except Unit PyObj) :
    Option PMap × List Effect :=
  match oracle with
  | .error _ => (none, [.model])
  | .ok .nondict => (none, [.model])
  | .ok (.dict m) =>
      (some (m.filter fun kv =>
        kv.2 ≠ JVal.null ∧ kv.2 ≠ JVal.str "" ∧ kv.2 ≠ JVal.arr []),
       [.model])

/-- A pattern matcher at one scan position: given the character preceding the
position (`none` at the very start of the string) and the remaining suffix,
returns the suffix left after the match, or `none` if the pattern does not
match here. Mirrors one anchored attempt of a `re` pattern. -/
def Matcher : Type := Option Char → List Char → Option (List Char)

/-- Scanner of `re.sub(pattern, repl, s)`: walk left to right, at each
position attempt the matcher; on a match emit the replacement and resume
after the matched text (tracking the last consumed character, which is what
`^`-in-multiline and `(?:^|\n)` anchors inspect), otherwise keep the
character and advance one position. Fuel bounds the scan by the input
length. -/
def reSubGo (m : Matcher) (repl : List Char) :
    Nat → Option Char → List Char → List Char
  | 0, _, s => s
  | _ + 1, _, [] => []
  | fuel + 1, prev, c :: rest =>
    match m prev (c :: rest) with
    | some r =>
        let consumed := (c :: rest).take ((c :: rest).length - r.length)
        let prev2 := match consumed.getLast? with
          | some c2 => some c2
          | none => prev
        repl ++ reSubGo m repl fuel prev2 r
    | none => c :: reSubGo m repl fuel (some c) rest

/-- Python `re.sub(pattern, repl, s)` for the patterns embedded below. -/
def reSub (m : Matcher) (repl : List Char) (s : List Char) : List Char :=
  reSubGo m repl (s.length + 1) none s

/-- Case-insensitive literal: consume the expected (lowercase) characters. -/
def litCI : List Char → List Char → Option (List Char)
  | [], s => some s
  | _ :: _, [] => none
  | c :: cs, d :: ds => if d.toLower = c then litCI cs ds else none

/-- Words of a field label joined by `\s+` (only "Issue Type" has two). -/
def matchWords : List (List Char) → List Char → Option (List Char)
  | [], s => some s
  | [w], s => litCI w s
  | w :: ws, s =>
    match litCI w s with
    | none => none
    | some r =>
      let r2 := r.dropWhile pyWsChar
      if r2.length < r.length then matchWords ws r2 else none

/-- Tail of a structured-field pattern after its `:`. With a value part the
tail is `\s*[^\n]+` (greedy `\s*` can absorb a newline, and at end of input
backtracks one non-newline whitespace character into `[^\n]+`); without, it
is just `\s*` (the `Requirements` pattern in the source has no value part). -/
def fieldTail (hasValue : Bool) (s : List Char) : Option (List Char) :=
  if hasValue then
    let w := s.takeWhile pyWsChar
    let rest := s.drop w.length
    match rest with
    | [] =>
      match w.getLast? with
      | some lc => if lc ≠ '\n' then some [] else none
      | none => none
    | _ :: _ => some (rest.dropWhile (fun ch => ch ≠ '\n'))
  else some (s.dropWhile pyWsChar)

/-- One structured-field pattern `Label\s*:\s*[^\n]+` (or `Label\s*:\s*`),
case-insensitive, as in `sanitize_chat_message` pattern 1. -/
def fieldMatcher (words : List (List Char)) (hasValue : Bool)
    (s : List Char) : Option (List Char) :=
  match matchWords words s with
  | none => none
  | some r =>
    match r.dropWhile pyWsChar with
    | ':' :: r2 => fieldTail hasValue r2
    | _ => none

/-- The `structured_fields` pattern list of `sanitize_chat_message`
(`text.py` 49-56), in source order; the Boolean says whether the pattern has
a `[^\n]+` value part (the `Requirements` pattern does not). -/
def structured_fields : List (List (List Char) × Bool) :=
  [([("issue").data, ("type").data], true),
   ([("title").data], true),
   ([("description").data], true),
   ([("requirements").data], false),
   ([("priority").data], true),
   ([("labels").data], true)]

/-- Substitution of one structured-field pattern with the empty string. -/
def fieldSub (p : List (List Char) × Bool) (s : List Char) : List Char :=
  reSub (fun _ r => fieldMatcher p.1 p.2 r) [] s

/-- Step 1 of the sanitizer: the six field substitutions applied in order. -/
def fieldPhase (s : List Char) : List Char :=
  structured_fields.foldl (fun acc p => fieldSub p acc) s

/-- Modelled from the spec: the spec's step 1 of the sanitizer, "Remove
line-level Label: value patterns for the fixed field names Issue Type,
Title, Description, Requirements, Priority (case-insensitive, value runs to
end of line)" — i.e. every one of the five named patterns carries a value
part running to end of line. Used only to compare the spec's words with the
source's `structured_fields` (whose `Requirements` pattern has no value
part). -/
def spec_structured_fields : List (List (List Char) × Bool) :=
  [([("issue").data, ("type").data], true),
   ([("title").data], true),
   ([("description").data], true),
   ([("requirements").data], true),
   ([("priority").data], true)]

/-- Modelled from the spec: spec version of sanitizer step 1. -/
def specFieldPhase (s : List Char) : List Char :=
  spec_structured_fields.foldl (fun acc p => fieldSub p acc) s

/-- Does the string contain a match of the given structured-field pattern at
any position? (`re.search` for the pattern.) -/
def hasFieldMatchGo (words : List (List Char)) (hv : Bool) :
    Nat → List Char → Bool
  | 0, _ => false
  | fuel + 1, s =>
    (fieldMatcher words hv s).isSome ||
    match s with
    | [] => false
    | _ :: rest => hasFieldMatchGo words hv fuel rest

/-- Whether a structured-field pattern still matches somewhere in `s`. -/
def hasFieldMatch (words : List (List Char)) (hv : Bool) (s : String) : Bool :=
  hasFieldMatchGo words hv (s.data.length + 1) s.data

/-- Bullet characters of sanitizer pattern 2 (`[-*•]`). -/
def bulletChar (c : Char) : Bool := c = '-' ∨ c = '*' ∨ c = '•'

/-- One bulleted line `[\s]*[-*•]\s+[^\n]+` of sanitizer pattern 2 (with the
same end-of-input backtracking of `\s+[^\n]+` as `fieldTail`). -/
def bulletLine (s : List Char) : Option (List Char) :=
  match s.dropWhile pyWsChar with
  | [] => none
  | c :: r2 =>
    if bulletChar c then
      let w := r2.takeWhile pyWsChar
      if w.isEmpty then none
      else
        let rest := r2.drop w.length
        match rest with
        | [] =>
          match w.getLast? with
          | some lc => if 2 ≤ w.length ∧ lc ≠ '\n' then some [] else none
          | none => none
        | _ :: _ => some (rest.dropWhile (fun ch => ch ≠ '\n'))
    else none

/-- Greedy repetitions `(?:\n[\s]*[-*•]\s+[^\n]+)*`, counting how many. -/
def bulletMore : Nat → List Char → Nat × List Char
  | 0, s => (0, s)
  | fuel + 1, s =>
    match s with
    | '\n' :: r =>
      match bulletLine r with
      | some r2 => ((bulletMore fuel r2).1 + 1, (bulletMore fuel r2).2)
      | none => (0, s)
    | _ => (0, s)

/-- Body of sanitizer pattern 2,
`[\s]*[-*•]\s+[^\n]+(?:\n[\s]*[-*•]\s+[^\n]+){2,}`. -/
def bulletBody (r : List Char) : Option (List Char) :=
  match bulletLine r with
  | some r1 =>
    if 2 ≤ (bulletMore (r1.length + 1) r1).1 then
      some (bulletMore (r1.length + 1) r1).2
    else none
  | none => none

/-- The anchored alternation `(?:^|\n)` in front of `bulletBody` (with
`re.MULTILINE`, `^` also matches right after a newline). -/
def bulletMatcher : Matcher := fun prev s =>
  match (if prev = none ∨ prev = some '\n' then bulletBody s else none) with
  | some r => some r
  | none =>
    match s with
    | '\n' :: rest => bulletBody rest
    | _ => none

/-- Greedy `\s*` with backtracking: try the match continuation `f` after
dropping `k` leading characters, longest whitespace prefix first. -/
def wsBtGo (f : List Char → Option (List Char)) (s : List Char) :
    Nat → Option (List Char)
  | 0 => f s
  | k + 1 =>
    match f (s.drop (k + 1)) with
    | some r => some r
    | none => wsBtGo f s k

/-- Trailing `\s*(?:\n|$)` of sanitizer pattern 3's title removal (`$`
without `re.MULTILINE`: end of string, or just before a final newline).
Greedily consumes through the last newline of the whitespace run; at end of
input it consumes the whole run via `$`. -/
def titleTail (s : List Char) : Option (List Char) :=
  let w := s.takeWhile pyWsChar
  match s.drop w.length with
  | [] => some []
  | _ :: _ =>
    let w2 := (w.reverse.dropWhile (fun c => c ≠ '\n')).reverse
    match w2.getLast? with
    | some _ => some (s.drop w2.length)
    | none => none

/-- Sanitizer pattern 3a: `(?:^|\n)\s*{re.escape(title)}\s*(?:\n|$)` — the
exact (case-sensitive) preview title standing alone on a line; replaced by a
newline. `^` here is the absolute start of the string (no `re.MULTILINE`). -/
def titleMatcher (title : List Char) : Matcher := fun prev s =>
  let core : List Char → Option (List Char) := fun r =>
    wsBtGo
      (fun r2 =>
        if title.isPrefixOf r2 then titleTail (r2.drop title.length) else none)
      r ((r.takeWhile pyWsChar).length)
  match (if prev = none then core s else none) with
  | some r => some r
  | none =>
    match s with
    | '\n' :: rest => core rest
    | _ => none

/-- Python `message.split(needle)[-1]`: the suffix after the last occurrence
in the left-to-right non-overlapping scan, or `none` when `needle` does not
occur (`needle in message` is false). -/
def splitTailGo (needle : List Char) : Nat → List Char → Option (List Char)
  | 0, _ => none
  | fuel + 1, s =>
    if needle.isPrefixOf s then
      let rest := s.drop needle.length
      match splitTailGo needle fuel rest with
      | some t => some t
      | none => some rest
    else
      match s with
      | [] => none
      | _ :: tl => splitTailGo needle fuel tl

/-- Suffix of `s` after the last occurrence of `needle` (see `splitTailGo`). -/
def lastSplitPart (needle s : List Char) : Option (List Char) :=
  splitTailGo needle (s.length + 1) s

/-- Labels of sanitizer pattern 4 (markdown headers), lowercase. -/
def headerLabels : List (List Char) :=
  [("issue type").data, ("title").data, ("description").data,
   ("requirements").data, ("priority").data]

/-- Trailing `\s*\n` of pattern 4: greedily consume whitespace through the
last newline of the run (no `$` alternative, so a newline is required). -/
def headerClose (s : List Char) : Option (List Char) :=
  let w := s.takeWhile pyWsChar
  let w2 := (w.reverse.dropWhile (fun c => c ≠ '\n')).reverse
  match w2.getLast? with
  | some _ => some (s.drop w2.length)
  | none => none

/-- Alternation over the five header labels (tried left to right). -/
def tryLabels : List (List Char) → List Char → Option (List Char)
  | [], _ => none
  | w :: ws, r =>
    match litCI w r with
    | some r2 =>
      (match headerClose r2 with
       | some r3 => some r3
       | none => tryLabels ws r)
    | none => tryLabels ws r

/-- After `#{1,3}`: `\s*(label)\s*\n`, case-insensitive. -/
def headerAfterHash (s : List Char) : Option (List Char) :=
  tryLabels headerLabels (s.dropWhile pyWsChar)

/-- Greedy `#{1,3}`: try three hashes, then two, then one. -/
def tryHashes (s : List Char) : Nat → Option (List Char)
  | 0 => none
  | k + 1 =>
    match headerAfterHash (s.drop (k + 1)) with
    | some r => some r
    | none => tryHashes s k

/-- Sanitizer pattern 4:
`#{1,3}\s*(Issue Type|Title|Description|Requirements|Priority)\s*\n`,
case-insensitive. -/
def headerMatcher : Matcher := fun _ s =>
  match s with
  | '#' :: r1 => tryHashes s (min 3 (1 + (r1.takeWhile (fun c => c = '#')).length))
  | _ => none

/-- Sanitizer pattern 5, `\n\s*\n\s*\n+`: a whitespace run starting at a
newline and containing at least three newlines, matched through its last
newline (trailing non-newline whitespace of the run is left in place);
replaced by a blank line. -/
def cleanupMatcher : Matcher := fun _ s =>
  match s with
  | '\n' :: _ =>
    let run := s.takeWhile pyWsChar
    if 3 ≤ (run.filter (fun c => c = '\n')).length then
      let keep := (run.reverse.dropWhile (fun c => c ≠ '\n')).reverse
      some (s.drop keep.length)
    else none
  | _ => none

/-- Pattern 3a of the sanitizer: remove standalone lines equal to the
preview title (only a truthy string title applies; a non-string truthy value
would raise in the source and cannot occur in a draft). -/
def previewTitleStep (pd : PMap) (m2 : List Char) : List Char :=
  match pmLookup pd "title" with
  | some (JVal.str t) =>
    if t ≠ "" then reSub (titleMatcher t.data) ['\n'] m2 else m2
  | _ => m2

/-- Pattern 3b of the sanitizer: when the first 200 characters of the
preview body occur in the message, keep only the text after the last
occurrence. -/
def previewBodyStep (pd : PMap) (mt : List Char) : List Char :=
  match pmLookup pd "body" with
  | some (JVal.str b) =>
    if b ≠ "" then
      match lastSplitPart (b.data.take 200) mt with
      | some tail => tail
      | none => mt
    else mt
  | _ => mt

/-- Pattern 3 of the sanitizer: both preview-content steps, applied only
when the preview dict is truthy. -/
def previewPhase (preview_data : Option PMap) (m2 : List Char) : List Char :=
  match preview_data with
  | some pd =>
    if pd ≠ [] then
      previewBodyStep pd (previewTitleStep pd m2)
    else m2
  | none => m2

/-- The whole cleaning pipeline of `sanitize_chat_message` (patterns 1-5 and
the final strip), before the length decision. -/
def sanitizePipeline (preview_data : Option PMap) (original : List Char) :
    List Char :=
  pyStripL (reSub cleanupMatcher ['\n', '\n'] (reSub headerMatcher []
    (previewPhase preview_data (reSub bulletMatcher [] (fieldPhase original)))))

/-- Embedding of `sanitize_chat_message` (`text.py` 28-94). `none` is the
Python `None` ("too much was removed") result. The patterns run in the
source order; the final length test
`len(message) < len(original_message) * 0.2` is embedded exactly as
`5 * len < orig`, which agrees with the float computation on all realistic
lengths. -/
def sanitize_chat_message (message : String) (preview_data : Option PMap) :
    Option String :=
  if message = "" ∨ pyStrip message = "" then some message
  else
    if 5 * (sanitizePipeline preview_data message.data).length
          < message.data.length
        ∧ 50 < message.data.length then none
    else some ⟨sanitizePipeline preview_data message.data⟩

/-- Embedding of `get_conversational_fallback` (`text.py` 124-131). -/
def get_conversational_fallback (preview_data : Option PMap) : String :=
  match preview_data with
  | some pd =>
    let titleTruthy : Bool :=
      match pmLookup pd "title" with
      | some v => v.truthy
      | none => false
    if pd ≠ [] ∧ titleTruthy then
      "I've updated the preview with your issue details. How does it look?"
    else "Let me know what else you'd like to add to the issue."
  | none => "Let me know what else you'd like to add to the issue."

/-- An issue row as `prioritize_issues` reads it. -/
structure Issue where
  id : Int
  title : String
deriving DecidableEq, Repr

/-- Parsed model reply for prioritization: a JSON list of ids, or anything
else (`isinstance(result, list)` fails). -/
inductive PyRes where
  | list : List Int → PyRes
  | other : PyRes
deriving DecidableEq, Repr

/-- Embedding of `prioritize_issues` (`ai_service.py` 133-147): the oracle is
the `_call_openai` outcome; non-list results and failures fall back to the
input order of ids. (The prompt truncates to `MAX_ISSUES_TO_PRIORITIZE`
issues, but the fallback uses the full input list, as in the source.) -/
def prioritize_issues (issues : List Issue) (oracle : Except Unit PyRes) :
    List Int :=
  match oracle with
  | .ok (.list l) => l
  | .ok .other => issues.map Issue.id
  | .error _ => issues.map Issue.id

/-- One conversation turn, as the chat endpoint receives it. -/
structure ChatMsg where
  role : String
  content : String
deriving DecidableEq, Repr

/-- A tool invocation as `_call_openai_chat_with_tools` returns it; the
`arguments` JSON string is carried already parsed (`json.loads` is applied
to it unconditionally in `chat_issue_creation` before the name dispatch). -/
structure ToolCall where
  id : String
  name : String
  arguments : PMap
deriving DecidableEq, Repr

/-- The normalized model reply of `_call_openai_chat_with_tools`: free-text
content (`''` when the model sent none) and the ordered tool calls. -/
structure ModelResponse where
  content : String
  tool_calls : List ToolCall
deriving DecidableEq, Repr

/-- Result union of `chat_issue_creation`: the terminal
`{status: "ready", issue_data}` payload, or the
`{status: "continue", message, preview_data, tool_calls}` payload. -/
inductive ChatResult where
  | ready : PMap → ChatResult
  | cont : String → PMap → List ToolCall → ChatResult
deriving DecidableEq, Repr

/-- Outcome of the tool-handling loop of `chat_issue_creation` (263-287):
either a hard return with the arguments of the first `signal_issue_ready`
invocation, or the working preview after merging every `update_preview`. -/
inductive ToolOutcome where
  | ready : PMap → ToolOutcome
  | merged : PMap → ToolOutcome
deriving DecidableEq, Repr

/-- The tool-handling loop itself. -/
def runTools : PMap → List ToolCall → ToolOutcome
  | pd, [] => .merged pd
  | pd, tc :: rest =>
    if tc.name = "signal_issue_ready" then .ready tc.arguments
    else if tc.name = "update_preview" then
      runTools (mergePreview pd tc.arguments) rest
    else runTools pd rest

/-- The explicit empty-shaped draft of the extraction fallback
(`ai_service.py` 292-298). -/
def defaultDraft : PMap :=
  [("title", .str ""), ("body", .str ""), ("issue_type", .null),
   ("labels", .arr []), ("priority", .null)]

/-- Working-preview initialization of `chat_issue_creation` (line 260):
`current_preview_data.copy() if current_preview_data else {}` (an absent or
empty caller draft both give the empty mapping). -/
def initialPreview : Option PMap → PMap
  | some m => m
  | none => []

/-- The preview fallback of `chat_issue_creation` (`ai_service.py` 289-298):
when the merged preview is still empty and the turn is not ready, run the
extraction fallback; `extracted or {...}` replaces a `None` or empty result
with the explicit empty-shaped draft. -/
def previewFallback (isReady : Bool) (pd1 : PMap)
    (extractOracle : Except Unit PyObj) : PMap × List Effect :=
  if pd1 = [] ∧ isReady = false then
    ((match (extract_issue_details_from_conversation extractOracle).1 with
      | some m => if m ≠ [] then m else defaultDraft
      | none => defaultDraft),
     (extract_issue_details_from_conversation extractOracle).2)
  else (pd1, [])

/-- Embedding of `chat_issue_creation` after the tool-enabled model call
returned (`ai_service.py` 259-335): tool handling, preview fallback,
sanitization of the conversational content, and the optional follow-up
model call. `extractOracle` and `convOracle` supply the outcomes of the two
possible further model calls; the effect list records what was performed. -/
def processResponse (isReady : Bool) (response : ModelResponse)
    (currentPreview : Option PMap) (extractOracle : Except Unit PyObj)
    (convOracle : Except Unit String) : ChatResult × List Effect :=
  match runTools (initialPreview currentPreview) response.tool_calls with
  | .ready args => (.ready args, [])
  | .merged pd1 =>
    let fb := previewFallback isReady pd1 extractOracle
    let pd2 := fb.1
    let mc0 := pyStrip response.content
    let sanitized :=
      if mc0 ≠ "" then
        match sanitize_chat_message mc0 (some pd2) with
        | some s =>
          ((if s ≠ "" then s else get_conversational_fallback (some pd2)),
           [Effect.sanitizer])
        | none => (get_conversational_fallback (some pd2), [Effect.sanitizer])
      else (mc0, [])
    let mc1 := sanitized.1
    let conv :=
      if mc1 = "" ∧ isReady = false then
        match convOracle with
        | .ok s => (s, [Effect.model])
        | .error _ =>
            ("Let me know if you'd like to adjust anything.", [Effect.model])
      else (mc1, [])
    (.cont conv.1 pd2 response.tool_calls, fb.2 ++ sanitized.2 ++ conv.2)

/-- The preview carried by a result, when it is a continue result. -/
def ChatResult.preview : ChatResult → Option PMap
  | .ready _ => none
  | .cont _ pd _ => some pd

/-- Embedding of `chat_issue_creation` (`ai_service.py` 179-335). The
conversation history and user message are sent to the model, whose reply
the `toolsOracle` abstracts; a `.error` there is an exception escaping the
function (nothing after the tool-enabled call catches it). -/
def chat_issue_creation (_conversationHistory : List ChatMsg)
    (userMessage : String) (currentPreview : Option PMap)
    (readinessOracle : Except Unit String)
    (toolsOracle : Except Unit ModelResponse)
    (extractOracle : Except Unit PyObj) (convOracle : Except Unit String) :
    Except Unit ChatResult × List Effect :=
  let detected := llm_detect_readiness userMessage readinessOracle
  match toolsOracle with
  | .error e => (.error e, detected.2 ++ [Effect.model])
  | .ok response =>
    let processed :=
      processResponse detected.1 response currentPreview extractOracle convOracle
    (.ok processed.1, detected.2 ++ [Effect.model] ++ processed.2)

/-- Request body of `/api/chat-issue` as `handle_chat_issue` reads it
(each key may be absent). -/
structure ChatRequest where
  conversation_history : Option (List ChatMsg)
  message : Option String
  current_preview_data : Option PMap

/-- Output union of `handle_chat_issue`: the blank-message validation error
`{status: "error", message}`, or a `chat_issue_creation` result. -/
inductive HandlerResult where
  | errorRes : String → HandlerResult
  | chatRes : ChatResult → HandlerResult
deriving DecidableEq, Repr

/-- Embedding of `handle_chat_issue` (`chat_handler.py` 6-17). A `.error`
outcome is an exception raised by `chat_issue_creation` propagating out. -/
def handle_chat_issue (req : ChatRequest) (readinessOracle : Except Unit String)
    (toolsOracle : Except Unit ModelResponse) (extractOracle : Except Unit PyObj)
    (convOracle : Except Unit String) : Except Unit HandlerResult × List Effect :=
  let history := match req.conversation_history with
    | some h => h
    | none => []
  let userMessage := pyStrip (match req.message with
    | some m => m
    | none => "")
  if userMessage = "" then
    (.ok (.errorRes "Please provide a message."), [])
  else
    match chat_issue_creation history userMessage req.current_preview_data
        readinessOracle toolsOracle extractOracle convOracle with
    | (.ok res, effs) => (.ok (.chatRes res), effs)
    | (.error e, effs) => (.error e, effs)

/-- ASCII alphanumeric, the `[a-zA-Z0-9]` class of the mention regex. -/
def ghAlnum (c : Char) : Bool :=
  ('a' ≤ c ∧ c ≤ 'z') ∨ ('A' ≤ c ∧ c ≤ 'Z') ∨ ('0' ≤ c ∧ c ≤ '9')

/-- Up to 38 further characters of a mention after its first one:
`(?:[a-zA-Z0-9]|-(?=[a-zA-Z0-9])){0,38}` — an alphanumeric, or a hyphen
followed (without consuming it) by an alphanumeric. Returns the consumed
tail and the remaining text. -/
def mentionTail : Nat → List Char → List Char × List Char
  | 0, s => ([], s)
  | _ + 1, [] => ([], [])
  | _ + 1, [c] => if ghAlnum c then ([c], []) else ([], [c])
  | n + 1, c :: c2 :: rest =>
    if ghAlnum c ∨ (c = '-' ∧ ghAlnum c2) then
      let (t, r) := mentionTail n (c2 :: rest)
      (c :: t, r)
    else ([], c :: c2 :: rest)

/-- `re.findall` scan of the mention pattern
`@([a-zA-Z0-9](?:[a-zA-Z0-9]|-(?=[a-zA-Z0-9])){0,38})`. -/
def findMentions : Nat → List Char → List (List Char)
  | 0, _ => []
  | _ + 1, [] => []
  | fuel + 1, '@' :: c :: rest =>
    if ghAlnum c then
      let (t, r) := mentionTail 38 rest
      (c :: t) :: findMentions fuel r
    else findMentions fuel (c :: rest)
  | fuel + 1, _ :: rest => findMentions fuel rest

/-- Order-preserving dedupe of `extract_mentioned_users` (19-25). -/
def dedupeKeepOrder (l : List String) : List String :=
  (l.foldl (fun acc m => if acc.contains m then acc else acc ++ [m]) [])

/-- Embedding of `extract_mentioned_users` (`text.py` 13-25). -/
def extract_mentioned_users (text : Option String) : List String :=
  match text with
  | none => []
  | some t =>
    if t = "" then []
    else dedupeKeepOrder ((findMentions (t.data.length + 1) t.data).map
      fun l => String.mk l)

/-- A changed file row as `fetch_pr_files` returns it. -/
structure PrFile where
  filename : String
  status : String
  additions : Int
  deletions : Int
deriving DecidableEq, Repr

/-- Parsed model output of a summary call (`_call_openai` json result),
as stored: a string-to-string mapping. -/
abbrev SummaryOut : Type := List (String × String)

/-- Embedding of `get_summary` (`ai_service.py` 113-130): one model call
whose outcome the oracle abstracts (`.error` carries `str(e)`); on failure a
degraded summary shaped by `is_pr` is substituted. The `files` argument only
shapes the prompt. -/
def get_summary (isPr : Bool) (_files : List PrFile)
    (oracle : Except String SummaryOut) : SummaryOut × List Effect :=
  match oracle with
  | .ok d => (d, [Effect.model])
  | .error e =>
    ((if isPr then
        [("summary", "Summary unavailable: " ++ e), ("code_updates", "")]
      else
        [("issue_type", "unknown"), ("summary", "Summary unavailable: " ++ e)]),
     [Effect.model])

/-- Response object of `/api/summarize`, which is also what the on-disk
summary cache stores per id. -/
structure SummaryResponse where
  summary : SummaryOut
  files : List PrFile
  mentioned_users : List String
deriving DecidableEq, Repr

/-- The on-disk summary cache as loaded by `load_cache`: a JSON object
mapping issue/PR id (text) to its cached response. -/
abbrev Cache : Type := List (String × SummaryResponse)

/-- Python `k in cache` / `cache[k]`. -/
def cacheLookup : Cache → String → Option SummaryResponse
  | [], _ => none
  | (k0, v0) :: rest, k => if k0 = k then some v0 else cacheLookup rest k

/-- Python `cache[k] = v` (replace in place or append). -/
def cacheSet : Cache → String → SummaryResponse → Cache
  | [], k, v => [(k, v)]
  | (k0, v0) :: rest, k, v =>
    if k0 = k then (k0, v) :: rest else (k0, v0) :: cacheSet rest k v

/-- Request body of `/api/summarize` as `handle_summarize` reads it; `id` is
already converted to text (`str(request_data.get('id', ''))`). -/
structure SummarizeRequest where
  id : Option String
  title : Option String
  body : Option String
  is_pr : Option Bool
  pr_url : Option String
  repo : Option String

/-- The non-cached branch of `handle_summarize` (`summary_handler.py`
17-39): mention extraction, conditional PR-file fetch, summary model call,
and the cache write when the id is non-empty. Returns the response, the
effects performed, and the cache contents afterwards. -/
def summarizeCompute (req : SummarizeRequest) (cache : Cache)
    (issueId : String) (fetchOracle : List PrFile)
    (summaryOracle : Except String SummaryOut) :
    SummaryResponse × List Effect × Cache :=
  let body := match req.body with
    | some b => b
    | none => ""
  let isPr : Bool := match req.is_pr with
    | some b => b
    | none => false
  let prUrl := match req.pr_url with
    | some u => u
    | none => ""
  let repo := match req.repo with
    | some r => r
    | none => ""
  let mentioned := extract_mentioned_users (some body)
  let doFetch : Bool := isPr ∧ prUrl ≠ "" ∧ repo ≠ ""
  let files := if doFetch then fetchOracle else []
  let fetchEffs : List Effect := if doFetch then [Effect.prFetch] else []
  let summarized := get_summary isPr files summaryOracle
  let response : SummaryResponse := ⟨summarized.1, files, mentioned⟩
  if issueId ≠ "" then
    (response, [Effect.mentionScan] ++ fetchEffs ++ summarized.2
       ++ [Effect.cacheWrite], cacheSet cache issueId response)
  else
    (response, [Effect.mentionScan] ++ fetchEffs ++ summarized.2, cache)

/-- Embedding of `handle_summarize` (`summary_handler.py` 10-39). `cache` is
the state `load_cache()` returns; a non-empty id already present in it is
returned as-is, short-circuiting everything else. -/
def handle_summarize (req : SummarizeRequest) (cache : Cache)
    (fetchOracle : List PrFile) (summaryOracle : Except String SummaryOut) :
    SummaryResponse × List Effect × Cache :=
  let issueId := match req.id with
    | some i => i
    | none => ""
  match cacheLookup cache issueId with
  | some v =>
    if issueId = "" then summarizeCompute req cache issueId fetchOracle summaryOracle
    else (v, [], cache)
  | none => summarizeCompute req cache issueId fetchOracle summaryOracle

/-! ## Theorems -/

/-- C6: `detect_readiness("let's create the ticket")` is true via the keyword
fast path with no model call, and every empty or all-whitespace message
yields false with no model call. -/
theorem C6_readiness_keyword_and_blank :
    (∀ o : Except Unit String,
       llm_detect_readiness "let's create the ticket" o = (true, []))
  ∧ (∀ (t : String) (o : Except Unit String), pyStrip t = "" →
       llm_detect_readiness t o = (false, [])) := by
  constructor
  · intro o
    rfl
  · intro t o h
    simp [llm_detect_readiness, h]

/-- Witness for C6: both parts applied at concrete inputs. -/
theorem C6_readiness_witness :
    llm_detect_readiness "let's create the ticket" (.error ()) = (true, [])
  ∧ llm_detect_readiness "  " (.error ()) = (false, []) :=
  ⟨C6_readiness_keyword_and_blank.1 (.error ()),
   C6_readiness_keyword_and_blank.2 "  " (.error ()) (by decide)⟩

/-- C9: when the prioritization model call fails, or returns something that
is not a list, the result is exactly the input issues' ids in order. -/
theorem C9_prioritize_fallback_order :
    ∀ (issues : List Issue) (o : Except Unit PyRes),
      (o = .error () ∨ o = .ok .other) →
      prioritize_issues issues o = issues.map Issue.id := by
  rintro issues o (rfl | rfl) <;> rfl

/-- Witness for C9: concrete failing call keeps the id order. -/
theorem C9_prioritize_witness :
    prioritize_issues [⟨7, "a"⟩, ⟨3, "b"⟩, ⟨9, "c"⟩] (.error ()) = [7, 3, 9] :=
  C9_prioritize_fallback_order [⟨7, "a"⟩, ⟨3, "b"⟩, ⟨9, "c"⟩] (.error ())
    (Or.inl rfl)

/-- C10: the extraction fallback returns `none` or a mapping whose values
are never null, the empty string, or the empty list; failures and non-dict
model results give `none`. -/
theorem C10_extract_filters_empties :
    (∀ (o : Except Unit PyObj) (m : PMap),
        (extract_issue_details_from_conversation o).1 = some m →
        ∀ kv ∈ m, kv.2 ≠ JVal.null ∧ kv.2 ≠ JVal.str "" ∧ kv.2 ≠ JVal.arr [])
  ∧ (extract_issue_details_from_conversation (.error ())).1 = none
  ∧ (extract_issue_details_from_conversation (.ok .nondict)).1 = none := by
  refine ⟨?_, rfl, rfl⟩
  intro o m h kv hkv
  match o with
  | .error _ => exact absurd h (by simp [extract_issue_details_from_conversation])
  | .ok .nondict => exact absurd h (by simp [extract_issue_details_from_conversation])
  | .ok (.dict d) =>
    simp only [extract_issue_details_from_conversation, Option.some.injEq] at h
    subst h
    have := List.of_mem_filter hkv
    exact of_decide_eq_true this

/-- Witness for C10: the universally quantified part applied at a concrete
model reply containing empty and non-empty fields. -/
theorem C10_extract_witness :
    ∀ kv ∈ [("title", JVal.str "t")],
      kv.2 ≠ JVal.null ∧ kv.2 ≠ JVal.str "" ∧ kv.2 ≠ JVal.arr [] :=
  C10_extract_filters_empties.1
    (.ok (.dict [("title", JVal.str "t"), ("body", JVal.str ""),
                 ("labels", JVal.arr []), ("priority", JVal.null)]))
    [("title", JVal.str "t")] (by decide)

/-- Setting a key makes it readable back. -/
theorem pmLookup_pmSet_self (pd : PMap) (k : String) (v : JVal) :
    pmLookup (pmSet pd k v) k = some v := by
  induction pd with
  | nil => simp [pmSet, pmLookup]
  | cons hd tl ih =>
    obtain ⟨k0, v0⟩ := hd
    by_cases h : k0 = k <;> simp [pmSet, pmLookup, h, ih]

/-- Setting one key leaves other keys unchanged. -/
theorem pmLookup_pmSet_ne (pd : PMap) (k k' : String) (v : JVal)
    (h : k ≠ k') : pmLookup (pmSet pd k v) k' = pmLookup pd k' := by
  induction pd with
  | nil => simp [pmSet, pmLookup, h]
  | cons hd tl ih =>
    obtain ⟨k0, v0⟩ := hd
    by_cases h0 : k0 = k
    · subst h0
      simp [pmSet, pmLookup, h]
    · simp [pmSet, pmLookup, h0, ih]

/-- A merge step for a different key does not change a key's value. -/
theorem mergeStep_lookup_ne (pd : PMap) (kv : String × JVal) (k : String)
    (h : kv.1 ≠ k) : pmLookup (mergeStep pd kv) k = pmLookup pd k := by
  unfold mergeStep
  split_ifs <;> first
    | rfl
    | exact pmLookup_pmSet_ne pd kv.1 k kv.2 h

/-- Folding merge steps over updates that never touch `k` leaves `k`'s value
unchanged. -/
theorem foldl_mergeStep_lookup_of_notmem (U : PMap) :
    ∀ (pd : PMap) (k : String), (∀ kv ∈ U, kv.1 ≠ k) →
      pmLookup (U.foldl mergeStep pd) k = pmLookup pd k := by
  induction U with
  | nil => intro pd k _; rfl
  | cons hd tl ih =>
    intro pd k h
    rw [List.foldl_cons, ih (mergeStep pd hd) k (fun kv hm => h kv (List.mem_cons_of_mem hd hm)),
      mergeStep_lookup_ne pd hd k (h hd (List.mem_cons_self hd tl))]

/-- Truthy incoming values win: helper for C2, by induction over the
updates. -/
theorem merge_truthy_wins : ∀ (U D : PMap) (k : String) (v : JVal),
    (U.map Prod.fst).Nodup → pmLookup U k = some v → v.truthy = true →
    pmLookup (U.foldl mergeStep D) k = some v := by
  intro U
  induction U with
  | nil =>
    intro D k v _ hv _
    simp [pmLookup] at hv
  | cons hd tl ih =>
    intro D k v hU hv htr
    obtain ⟨k0, v0⟩ := hd
    simp only [List.map_cons, List.nodup_cons] at hU
    rw [List.foldl_cons]
    by_cases h0 : k0 = k
    · subst h0
      simp [pmLookup] at hv
      subst hv
      have hnot : ∀ kv ∈ tl, kv.1 ≠ k0 := by
        intro kv hm hk
        exact hU.1 (hk ▸ List.mem_map_of_mem Prod.fst hm)
      rw [foldl_mergeStep_lookup_of_notmem tl _ k0 hnot]
      have hstep : mergeStep D (k0, v0) = pmSet D k0 v0 := by
        unfold mergeStep
        rw [if_pos (Or.inl htr)]
      rw [hstep, pmLookup_pmSet_self]
    · simp only [pmLookup, if_neg h0] at hv
      exact ih (mergeStep D (k0, v0)) k v hU.2 hv htr

/-- Falsy or absent incoming values keep a present existing value: helper
for C2. -/
theorem merge_keeps_existing : ∀ (U D : PMap) (k : String) (w : JVal),
    (U.map Prod.fst).Nodup → pmLookup D k = some w →
    (pmLookup U k = none ∨ ∃ v, pmLookup U k = some v ∧ v.truthy = false) →
    pmLookup (U.foldl mergeStep D) k = some w := by
  intro U
  induction U with
  | nil =>
    intro D k w _ hw _
    exact hw
  | cons hd tl ih =>
    intro D k w hU hw hu
    obtain ⟨k0, v0⟩ := hd
    simp only [List.map_cons, List.nodup_cons] at hU
    rw [List.foldl_cons]
    by_cases h0 : k0 = k
    · subst h0
      have hv0 : v0.truthy = false := by
        rcases hu with hnone | ⟨v, hv, hf⟩
        · simp [pmLookup] at hnone
        · simp [pmLookup] at hv
          rw [hv]
          exact hf
      have hstep : mergeStep D (k0, v0) = D := by
        unfold mergeStep
        rw [if_neg, if_neg]
        · simp [hw]
        · rintro (h1 | ⟨-, h2⟩)
          · exact absurd h1 (by simp [hv0])
          · exact absurd h2 (by simp [hw])
      have hnot : ∀ kv ∈ tl, kv.1 ≠ k0 := by
        intro kv hm hk
        exact hU.1 (hk ▸ List.mem_map_of_mem Prod.fst hm)
      rw [hstep, foldl_mergeStep_lookup_of_notmem tl D k0 hnot]
      exact hw
    · have hw2 : pmLookup (mergeStep D (k0, v0)) k = some w := by
        rw [mergeStep_lookup_ne D (k0, v0) k h0]
        exact hw
      have hu2 : pmLookup tl k = none ∨
          ∃ v, pmLookup tl k = some v ∧ v.truthy = false := by
        simpa [pmLookup, if_neg h0] using hu
      exact ih (mergeStep D (k0, v0)) k w hU.2 hw2 hu2

/-- C2: the `update_preview` merge never drops a non-empty existing field.
For a dict of updates `U` (keys distinct, as in any Python dict) merged into
the current draft `D`: a key whose incoming value is truthy ends with the
incoming value, and a key whose existing value is truthy and whose incoming
value is absent or falsy keeps the existing value. -/
theorem C2_merge_preserves_nonempty (D U : PMap)
    (hU : (U.map Prod.fst).Nodup) (k : String) :
    (∀ v : JVal, pmLookup U k = some v → v.truthy = true →
       pmLookup (mergePreview D U) k = some v)
  ∧ (∀ w : JVal, pmLookup D k = some w → w.truthy = true →
       (pmLookup U k = none ∨ ∃ v, pmLookup U k = some v ∧ v.truthy = false) →
       pmLookup (mergePreview D U) k = some w) :=
  ⟨fun v hv htr => merge_truthy_wins U D k v hU hv htr,
   fun w hw _ hu => merge_keeps_existing U D k w hU hw hu⟩

/-- Witness for C2: the spec's merger scenario
`merge({title: "Bug in login"}, {title: "", labels: ["bug"]})`. -/
theorem C2_merge_witness :
    pmLookup (mergePreview [("title", JVal.str "Bug in login")]
        [("title", JVal.str ""), ("labels", JVal.arr ["bug"])]) "title"
      = some (JVal.str "Bug in login")
  ∧ pmLookup (mergePreview [("title", JVal.str "Bug in login")]
        [("title", JVal.str ""), ("labels", JVal.arr ["bug"])]) "labels"
      = some (JVal.arr ["bug"]) :=
  ⟨(C2_merge_preserves_nonempty [("title", JVal.str "Bug in login")]
      [("title", JVal.str ""), ("labels", JVal.arr ["bug"])] (by decide) "title").2
      (JVal.str "Bug in login") (by decide) (by decide)
      (Or.inr ⟨JVal.str "", by decide, by decide⟩),
   (C2_merge_preserves_nonempty [("title", JVal.str "Bug in login")]
      [("title", JVal.str ""), ("labels", JVal.arr ["bug"])] (by decide) "labels").1
      (JVal.arr ["bug"]) (by decide) (by decide)⟩

/-- The tool loop hard-returns the first `signal_issue_ready` invocation's
arguments, whatever preview state the earlier merges produced. -/
theorem runTools_first_signal : ∀ (tcs : List ToolCall) (tc : ToolCall),
    tcs.find? (fun t => t.name == "signal_issue_ready") = some tc →
    ∀ pd : PMap, runTools pd tcs = .ready tc.arguments := by
  intro tcs
  induction tcs with
  | nil =>
    intro tc h
    simp [List.find?] at h
  | cons hd tl ih =>
    intro tc h pd
    by_cases hn : hd.name = "signal_issue_ready"
    · rw [List.find?_cons_of_pos _ (by simp [hn])] at h
      cases h
      unfold runTools
      rw [if_pos hn]
    · rw [List.find?_cons_of_neg _ (by simp [hn])] at h
      unfold runTools
      rw [if_neg hn]
      by_cases hu : hd.name = "update_preview"
      · rw [if_pos hu]
        exact ih tc h _
      · rw [if_neg hu]
        exact ih tc h pd

/-- C1: whenever the model reply contains a `signal_issue_ready` tool call,
`chat_issue_creation`'s response processing returns the ready status with
the parsed arguments of the first such call, performing no later-tool-call
merging visible in the result and, after the tool-enabled call, no
extraction fallback, no sanitization and no further model call (the effect
list is empty). -/
theorem C1_signal_ready_hard_return :
    ∀ (isReady : Bool) (resp : ModelResponse) (cp : Option PMap)
      (eo : Except Unit PyObj) (co : Except Unit String) (tc : ToolCall),
      resp.tool_calls.find? (fun t => t.name == "signal_issue_ready") = some tc →
      processResponse isReady resp cp eo co = (.ready tc.arguments, []) := by
  intro isReady resp cp eo co tc h
  unfold processResponse
  rw [runTools_first_signal resp.tool_calls tc h]

/-- Witness for C1: a reply carrying an `update_preview` call, then the
signal, then another `update_preview`; the signal's arguments are returned
and no effect is performed. -/
theorem C1_signal_ready_witness :
    processResponse true
      ⟨"sure", [⟨"1", "update_preview", [("title", JVal.str "T")]⟩,
                ⟨"2", "signal_issue_ready",
                 [("title", JVal.str "T"), ("body", JVal.str "B"),
                  ("issue_type", JVal.str "bug"), ("labels", JVal.arr [])]⟩,
                ⟨"3", "update_preview", [("labels", JVal.arr ["x"])]⟩]⟩
      (some [("priority", JVal.str "high")]) (.error ()) (.error ())
    = (.ready [("title", JVal.str "T"), ("body", JVal.str "B"),
               ("issue_type", JVal.str "bug"), ("labels", JVal.arr [])], []) :=
  C1_signal_ready_hard_return true _ _ _ _
    ⟨"2", "signal_issue_ready",
     [("title", JVal.str "T"), ("body", JVal.str "B"),
      ("issue_type", JVal.str "bug"), ("labels", JVal.arr [])]⟩
    (by decide)

/-- On a non-ready turn the preview fallback never yields an empty preview. -/
theorem previewFallback_ne_nil (pd1 : PMap) (eo : Except Unit PyObj) :
    (previewFallback false pd1 eo).1 ≠ [] := by
  unfold previewFallback
  by_cases hp : pd1 = []
  · rw [if_pos ⟨hp, rfl⟩]
    cases hex : (extract_issue_details_from_conversation eo).1 with
    | none => simp [defaultDraft]
    | some m =>
      by_cases hm : m = []
      · simp [hm, defaultDraft]
      · simp [hm]
  · rw [if_neg (fun hc => hp hc.1)]
    exact hp

/-- On a non-ready turn with nothing merged and nothing extracted, the
fallback is exactly the explicit empty-shaped draft. -/
theorem previewFallback_default (eo : Except Unit PyObj)
    (hex : (extract_issue_details_from_conversation eo).1 = none ∨
           (extract_issue_details_from_conversation eo).1 = some []) :
    (previewFallback false [] eo).1 = defaultDraft := by
  unfold previewFallback
  rw [if_pos ⟨rfl, rfl⟩]
  rcases hex with h | h <;> simp [h]

/-- Counterexample for C3: when readiness was detected but the model reply
carries no tool call at all (ignoring the forced `signal_issue_ready` tool
choice), the turn still returns a continue result, and its preview is the
empty mapping — not the explicit empty-shaped draft with all five fields. -/
theorem C3_counterexample :
    processResponse true ⟨"", []⟩ none (.ok .nondict) (.ok "x")
      = (.cont "" [] [], [])
  ∧ ([] : PMap) ≠ defaultDraft
  ∧ pmLookup ([] : PMap) "title" = none := ⟨rfl, by decide, rfl⟩

/-- C3 (amended): on every turn whose readiness detection returned false, a
continue result's preview is never empty — and when neither the caller's
draft, the tool merge, nor the extraction produced any field, it is exactly
the explicit empty-shaped draft with all five fields present but
empty/unset. (On a ready turn, reachable as a continue result only if the
model ignores the forced `signal_issue_ready` tool choice, the preview can
be an empty mapping, as the counterexample shows.) -/
theorem C3_continue_preview_never_absent :
    ∀ (resp : ModelResponse) (cp : Option PMap) (eo : Except Unit PyObj)
      (co : Except Unit String) (pd : PMap),
      (processResponse false resp cp eo co).1.preview = some pd →
      pd ≠ [] ∧
      (runTools (initialPreview cp) resp.tool_calls = .merged [] →
       (extract_issue_details_from_conversation eo).1 = none ∨
       (extract_issue_details_from_conversation eo).1 = some [] →
       pd = defaultDraft) := by
  intro resp cp eo co pd h
  unfold processResponse at h
  cases hrt : runTools (initialPreview cp) resp.tool_calls with
  | ready a =>
    rw [hrt] at h
    simp [ChatResult.preview] at h
  | merged pd1 =>
    rw [hrt] at h
    simp only [ChatResult.preview, Option.some.injEq] at h
    subst h
    refine ⟨previewFallback_ne_nil pd1 eo, ?_⟩
    intro hmerged hex
    cases hmerged
    exact previewFallback_default eo hex

/-- Witness for C3's amended theorem: a non-ready turn with no tool calls,
no current preview and a failing extraction yields exactly the empty-shaped
draft. -/
theorem C3_continue_preview_witness :
    (processResponse false ⟨"", []⟩ none (.error ()) (.ok "x")).1.preview
        = some defaultDraft
  ∧ defaultDraft ≠ [] :=
  ⟨by rfl,
   (C3_continue_preview_never_absent ⟨"", []⟩ none (.error ()) (.ok "x")
      defaultDraft (by rfl)).1⟩

/-- C7: a `/api/chat-issue` request whose message is missing, empty or
all-whitespace gets the structured error result with no collaborator
contacted (empty effect list); a non-blank message can never produce that
error shape (any successful handler result is a chat result). -/
theorem C7_blank_message_validation :
    ∀ (req : ChatRequest) (ro : Except Unit String)
      (tco : Except Unit ModelResponse) (eo : Except Unit PyObj)
      (co : Except Unit String),
      (pyStrip (match req.message with | some m => m | none => "") = "" →
        handle_chat_issue req ro tco eo co
          = (.ok (.errorRes "Please provide a message."), []))
    ∧ (pyStrip (match req.message with | some m => m | none => "") ≠ "" →
        ∀ (r : HandlerResult) (s : String),
          (handle_chat_issue req ro tco eo co).1 = Except.ok r →
          r ≠ HandlerResult.errorRes s) := by
  intro req ro tco eo co
  constructor
  · intro h
    unfold handle_chat_issue
    rw [if_pos h]
  · intro h r s hr
    unfold handle_chat_issue at hr
    rw [if_neg h] at hr
    cases hcall : chat_issue_creation
        (match req.conversation_history with | some h => h | none => [])
        (pyStrip (match req.message with | some m => m | none => ""))
        req.current_preview_data ro tco eo co with
    | mk exc effs =>
      rw [hcall] at hr
      cases exc with
      | ok res =>
        simp only [Except.ok.injEq] at hr
        subst hr
        intro hcontra
        cases hcontra
      | error e => simp at hr

/-- Witness for C7: the blank branch at a whitespace message, and the
non-blank branch at a concrete request whose turn completes. -/
theorem C7_blank_message_witness :
    handle_chat_issue ⟨none, some " \t ", none⟩ (.error ()) (.ok ⟨"", []⟩)
      (.ok .nondict) (.ok "m")
      = (.ok (.errorRes "Please provide a message."), [])
  ∧ (HandlerResult.chatRes (.cont "m" defaultDraft []) : HandlerResult)
      ≠ HandlerResult.errorRes "Please provide a message." :=
  ⟨(C7_blank_message_validation ⟨none, some " \t ", none⟩ (.error ())
      (.ok ⟨"", []⟩) (.ok .nondict) (.ok "m")).1 (by decide),
   (C7_blank_message_validation ⟨none, some "hi", none⟩ (.error ())
      (.ok ⟨"", []⟩) (.ok .nondict) (.ok "m")).2 (by decide)
      (HandlerResult.chatRes (.cont "m" defaultDraft []))
      "Please provide a message." (by rfl)⟩

/-- C8: a `/api/summarize` request whose textual id is a non-empty key of
the cache returns the cached value unchanged with no mention extraction, no
PR-file fetch, no model call and no cache write, and the cache is left
exactly as loaded. -/
theorem C8_cache_hit_short_circuits :
    ∀ (req : SummarizeRequest) (cache : Cache) (fo : List PrFile)
      (so : Except String SummaryOut) (i : String) (v : SummaryResponse),
      req.id = some i → i ≠ "" → cacheLookup cache i = some v →
      handle_summarize req cache fo so = (v, [], cache) := by
  intro req cache fo so i v hid hne hv
  unfold handle_summarize
  rw [hid]
  show (match cacheLookup cache i with
    | some v => if i = "" then summarizeCompute req cache i fo so else (v, [], cache)
    | none => summarizeCompute req cache i fo so) = (v, [], cache)
  rw [hv]
  exact if_neg hne

/-- Witness for C8: a concrete cached id short-circuits. -/
theorem C8_cache_hit_witness :
    handle_summarize ⟨some "42", some "t", some "b", some true, some "u", some "r"⟩
      [("42", ⟨[("summary", "s")], [], ["u"]⟩)] [] (.error "boom")
      = (⟨[("summary", "s")], [], ["u"]⟩, [],
         [("42", ⟨[("summary", "s")], [], ["u"]⟩)]) :=
  C8_cache_hit_short_circuits
    ⟨some "42", some "t", some "b", some true, some "u", some "r"⟩
    [("42", ⟨[("summary", "s")], [], ["u"]⟩)] [] (.error "boom") "42"
    ⟨[("summary", "s")], [], ["u"]⟩ rfl (by decide) (by decide)

/-- Counterexample for C5: on `"Requirements: abc"` the sanitizer's first
step leaves the value `"abc"` in place (the source's `Requirements` pattern
has no value part), while the spec's step — value running to the end of the
line — would remove the whole line. -/
theorem C5_counterexample :
    fieldPhase ("Requirements: abc").data = ("abc").data
  ∧ specFieldPhase ("Requirements: abc").data = []
  ∧ fieldPhase ("Requirements: abc").data
      ≠ specFieldPhase ("Requirements: abc").data := by
  refine ⟨by decide, by decide, by decide⟩

/-- C5 (amended): in the sanitizer's first step the removed value runs to
the end of the line for Issue Type, Title, Description and Priority (and for
the additional Labels pattern), but the Requirements pattern removes only
the label, the colon and the following whitespace, leaving the value in
place. Concretely, each of the four valued labels' lines is removed whole
while the Requirements line keeps its value, case-insensitively. -/
theorem C5_field_patterns :
    fieldPhase ("Issue Type: Bug\nTitle: Crash on load\nDescription: It crashes\nPriority: high\nRequirements: must be fast").data
      = ("\n\n\n\nmust be fast").data
  ∧ fieldPhase ("issue type: Bug\ntitle: Crash on load\nlabels: a, b\nREQUIREMENTS:   keeps the value").data
      = ("\n\n\nkeeps the value").data := by
  refine ⟨by decide, by decide⟩

/-- Counterexample for C4: sanitization is not idempotent. Removing the
`Requirements:` label from `"TitlRequiremRequirements:ents:e: x"` splices a
new `Requirements:` occurrence; the second application removes that and
splices `"Title: x"`, so the doubly sanitized text still matches the Title
structured-field pattern. -/
theorem C4_counterexample :
    sanitize_chat_message "TitlRequiremRequirements:ents:e: x" none
      = some "TitlRequirements:e: x"
  ∧ sanitize_chat_message "TitlRequirements:e: x" none = some "Title: x"
  ∧ hasFieldMatch [("title").data] true "Title: x" = true := by
  refine ⟨by decide, by decide, by decide⟩

/-- A matched literal leaves a suffix of its input. -/
theorem litCI_suffix : ∀ (w s r : List Char), litCI w s = some r → r <:+ s := by
  intro w
  induction w with
  | nil =>
    intro s r h
    simp only [litCI, Option.some.injEq] at h
    exact h ▸ List.suffix_refl s
  | cons c cs ih =>
    intro s r h
    cases s with
    | nil => simp [litCI] at h
    | cons d ds =>
      unfold litCI at h
      split_ifs at h with hd
      exact (ih ds r h).trans (List.suffix_cons d ds)

/-- A matched label leaves a suffix of its input. -/
theorem matchWords_suffix : ∀ (ws : List (List Char)) (s r : List Char),
    matchWords ws s = some r → r <:+ s := by
  intro ws
  induction ws with
  | nil =>
    intro s r h
    simp only [matchWords, Option.some.injEq] at h
    exact h ▸ List.suffix_refl s
  | cons w ws2 ih =>
    intro s r h
    cases ws2 with
    | nil => exact litCI_suffix w s r h
    | cons w2 ws3 =>
      unfold matchWords at h
      cases hl : litCI w s with
      | none => rw [hl] at h; cases h
      | some r1 =>
        rw [hl] at h
        simp only at h
        split_ifs at h with hlen
        exact ((ih _ r h).trans (List.dropWhile_suffix pyWsChar)).trans
          (litCI_suffix w s r1 hl)

/-- The matched field tail leaves a suffix of its input. -/
theorem fieldTail_suffix : ∀ (hv : Bool) (s r : List Char),
    fieldTail hv s = some r → r <:+ s := by
  intro hv s r h
  unfold fieldTail at h
  simp only [] at h
  split_ifs at h with hval
  · split at h
    · split at h
      · split_ifs at h
        simp only [Option.some.injEq] at h
        exact h ▸ List.nil_suffix
      · cases h
    · simp only [Option.some.injEq] at h
      subst h
      exact (List.dropWhile_suffix _).trans (List.drop_suffix _ s)
  · simp only [Option.some.injEq] at h
    exact h ▸ List.dropWhile_suffix pyWsChar

/-- A structured-field match leaves a suffix of its input. -/
theorem fieldMatcher_suffix (ws : List (List Char)) (hv : Bool)
    (s r : List Char) (h : fieldMatcher ws hv s = some r) : r <:+ s := by
  unfold fieldMatcher at h
  split at h
  · cases h
  · next r1 hmw =>
      split at h
      · next r2 hdw =>
          have h1 : r <:+ r2 := fieldTail_suffix hv r2 r h
          have h2 : (':' :: r2) <:+ r1 := hdw ▸ List.dropWhile_suffix pyWsChar
          exact ((h1.trans (List.suffix_cons ':' r2)).trans h2).trans
            (matchWords_suffix ws s r1 hmw)
      · cases h

/-- A structured-field match requires a colon in its input. -/
theorem fieldMatcher_colon (ws : List (List Char)) (hv : Bool)
    (s r : List Char) (h : fieldMatcher ws hv s = some r) : ':' ∈ s := by
  unfold fieldMatcher at h
  split at h
  · cases h
  · next r1 hmw =>
      split at h
      · next r2 hdw =>
          have h2 : ':' ∈ r1.dropWhile pyWsChar := by
            rw [hdw]
            exact List.mem_cons_self ':' r2
          have h3 : ':' ∈ r1 :=
            (List.dropWhile_suffix pyWsChar).sublist.subset h2
          exact (matchWords_suffix ws s r1 hmw).sublist.subset h3
      · cases h

/-- A structured-field match anywhere requires a colon somewhere. -/
theorem hasFieldMatchGo_colon (ws : List (List Char)) (hv : Bool) :
    ∀ (fuel : Nat) (s : List Char),
      hasFieldMatchGo ws hv fuel s = true → ':' ∈ s := by
  intro fuel
  induction fuel with
  | zero => intro s h; cases h
  | succ f ih =>
    intro s h
    unfold hasFieldMatchGo at h
    rw [Bool.or_eq_true] at h
    rcases h with h | h
    · rw [Option.isSome_iff_exists] at h
      obtain ⟨r, hr⟩ := h
      exact fieldMatcher_colon ws hv s r hr
    · cases s with
      | nil => cases h
      | cons c0 rest => exact List.mem_cons_of_mem c0 (ih rest h)

/-- Characters surviving a substitution scan come from the input or from
the replacement text, provided every match leaves a suffix of its input. -/
theorem reSubGo_mem (m : Matcher) (repl : List Char)
    (hm : ∀ pc s r, m pc s = some r → r <:+ s) :
    ∀ (fuel : Nat) (prev : Option Char) (s : List Char) (c : Char),
      c ∈ reSubGo m repl fuel prev s → c ∈ s ∨ c ∈ repl := by
  intro fuel
  induction fuel with
  | zero =>
    intro prev s c h
    exact Or.inl h
  | succ f ih =>
    intro prev s c h
    cases s with
    | nil => cases h
    | cons c0 rest =>
      unfold reSubGo at h
      split at h
      · next r heq =>
          simp only [List.mem_append] at h
          rcases h with h | h
          · exact Or.inr h
          · rcases ih _ r c h with hin | hin
            · exact Or.inl ((hm prev (c0 :: rest) r heq).sublist.subset hin)
            · exact Or.inr hin
      · rcases List.mem_cons.mp h with rfl | hmem
        · exact Or.inl (List.mem_cons_self c rest)
        · rcases ih (some c0) rest c hmem with hin | hin
          · exact Or.inl (List.mem_cons_of_mem c0 hin)
          · exact Or.inr hin

/-- `reSub` version of `reSubGo_mem`. -/
theorem reSub_mem (m : Matcher) (repl : List Char)
    (hm : ∀ pc s r, m pc s = some r → r <:+ s) (s : List Char) (c : Char)
    (h : c ∈ reSub m repl s) : c ∈ s ∨ c ∈ repl :=
  reSubGo_mem m repl hm (s.length + 1) none s c h

/-- A matched bulleted line leaves a suffix of its input. -/
theorem bulletLine_suffix (s r : List Char) (h : bulletLine s = some r) :
    r <:+ s := by
  unfold bulletLine at h
  split at h
  · cases h
  · next c r2 hdw =>
      simp only [] at h
      split_ifs at h with hb hw
      have hr2 : r2 <:+ s :=
        (List.suffix_cons c r2).trans (hdw ▸ List.dropWhile_suffix pyWsChar)
      split at h
      · split at h
        · split_ifs at h
          simp only [Option.some.injEq] at h
          exact h ▸ List.nil_suffix
        · cases h
      · simp only [Option.some.injEq] at h
        subst h
        exact ((List.dropWhile_suffix _).trans (List.drop_suffix _ r2)).trans hr2

/-- The bullet repetitions end in a suffix of their input. -/
theorem bulletMore_suffix : ∀ (fuel : Nat) (s : List Char),
    (bulletMore fuel s).2 <:+ s := by
  intro fuel
  induction fuel with
  | zero => intro s; exact List.suffix_refl s
  | succ f ih =>
    intro s
    unfold bulletMore
    split
    · next r =>
        split
        · next r2 hbl =>
            exact ((ih r2).trans (bulletLine_suffix r r2 hbl)).trans
              (List.suffix_cons '\n' r)
        · exact List.suffix_refl _
    · exact List.suffix_refl _

/-- A bullet-body match leaves a suffix of its input. -/
theorem bulletBody_suffix (s r : List Char) (h : bulletBody s = some r) :
    r <:+ s := by
  unfold bulletBody at h
  split at h
  · next r1 hbl =>
      split_ifs at h
      simp only [Option.some.injEq] at h
      exact h ▸ (bulletMore_suffix (r1.length + 1) r1).trans
        (bulletLine_suffix s r1 hbl)
  · cases h

/-- A bullet-pattern match leaves a suffix of its input. -/
theorem bulletMatcher_suffix : ∀ (pc : Option Char) (s r : List Char),
    bulletMatcher pc s = some r → r <:+ s := by
  intro pc s r h
  unfold bulletMatcher at h
  split at h
  · next r0 heq =>
      simp only [Option.some.injEq] at h
      subst h
      split_ifs at heq
      exact bulletBody_suffix s r0 heq
  · split at h
    · rename_i rr heqnone
      exact (bulletBody_suffix rr r h).trans (List.suffix_cons '\n' rr)
    · cases h

/-- Backtracking over a whitespace prefix preserves the suffix property of
its continuation. -/
theorem wsBtGo_suffix (f : List Char → Option (List Char))
    (hf : ∀ s2 r, f s2 = some r → r <:+ s2) :
    ∀ (k : Nat) (s r : List Char), wsBtGo f s k = some r → r <:+ s := by
  intro k
  induction k with
  | zero =>
    intro s r h
    exact hf s r h
  | succ kk ih =>
    intro s r h
    unfold wsBtGo at h
    split at h
    · next heq =>
        simp only [Option.some.injEq] at h
        subst h
        exact (hf _ _ heq).trans (List.drop_suffix _ s)
    · exact ih s r h

/-- The title tail leaves a suffix of its input. -/
theorem titleTail_suffix (s r : List Char) (h : titleTail s = some r) :
    r <:+ s := by
  unfold titleTail at h
  simp only [] at h
  split at h
  · simp only [Option.some.injEq] at h
    exact h ▸ List.nil_suffix
  · split at h
    · simp only [Option.some.injEq] at h
      exact h ▸ List.drop_suffix _ s
    · cases h

/-- A title-removal match leaves a suffix of its input. -/
theorem titleMatcher_suffix (title : List Char) :
    ∀ (pc : Option Char) (s r : List Char),
      titleMatcher title pc s = some r → r <:+ s := by
  have hcore : ∀ (s2 r : List Char),
      wsBtGo (fun r2 => if title.isPrefixOf r2 then
          titleTail (r2.drop title.length) else none)
        s2 ((s2.takeWhile pyWsChar).length) = some r → r <:+ s2 := by
    intro s2 r h
    refine wsBtGo_suffix _ ?_ _ s2 r h
    intro s3 r3 h3
    split_ifs at h3
    exact (titleTail_suffix _ r3 h3).trans (List.drop_suffix _ s3)
  intro pc s r h
  unfold titleMatcher at h
  split_ifs at h with hpc <;> simp only [] at h
  · split at h
    · next r0 heq =>
        simp only [Option.some.injEq] at h
        exact h ▸ hcore s r0 heq
    · split at h
      · rename_i rr hwnone
        exact (hcore rr r h).trans (List.suffix_cons '\n' rr)
      · cases h
  · split at h
    · rename_i rr
      exact (hcore rr r h).trans (List.suffix_cons '\n' rr)
    · cases h

/-- The header closer leaves a suffix of its input. -/
theorem headerClose_suffix (s r : List Char) (h : headerClose s = some r) :
    r <:+ s := by
  unfold headerClose at h
  simp only [] at h
  split at h
  · simp only [Option.some.injEq] at h
    exact h ▸ List.drop_suffix _ s
  · cases h

/-- The header-label alternation leaves a suffix of its input. -/
theorem tryLabels_suffix : ∀ (ls : List (List Char)) (s r : List Char),
    tryLabels ls s = some r → r <:+ s := by
  intro ls
  induction ls with
  | nil => intro s r h; cases h
  | cons w ws ih =>
    intro s r h
    unfold tryLabels at h
    split at h
    · next r2 hlit =>
        split at h
        · next r3 hclose =>
            simp only [Option.some.injEq] at h
            exact h ▸ (headerClose_suffix r2 r3 hclose).trans
              (litCI_suffix w s r2 hlit)
        · exact ih s r h
    · exact ih s r h

/-- A header match (after the hashes) leaves a suffix of its input. -/
theorem headerAfterHash_suffix (s r : List Char)
    (h : headerAfterHash s = some r) : r <:+ s :=
  (tryLabels_suffix headerLabels _ r h).trans (List.dropWhile_suffix pyWsChar)

/-- The hash-count backtracking leaves a suffix of its input. -/
theorem tryHashes_suffix : ∀ (k : Nat) (s r : List Char),
    tryHashes s k = some r → r <:+ s := by
  intro k
  induction k with
  | zero => intro s r h; cases h
  | succ kk ih =>
    intro s r h
    unfold tryHashes at h
    split at h
    · next heq =>
        simp only [Option.some.injEq] at h
        exact h ▸ (headerAfterHash_suffix _ _ heq).trans (List.drop_suffix _ s)
    · exact ih s r h

/-- A header-pattern match leaves a suffix of its input. -/
theorem headerMatcher_suffix : ∀ (pc : Option Char) (s r : List Char),
    headerMatcher pc s = some r → r <:+ s := by
  intro pc s r h
  unfold headerMatcher at h
  split at h
  · exact tryHashes_suffix _ _ r h
  · cases h

/-- A blank-run cleanup match leaves a suffix of its input. -/
theorem cleanupMatcher_suffix : ∀ (pc : Option Char) (s r : List Char),
    cleanupMatcher pc s = some r → r <:+ s := by
  intro pc s r h
  unfold cleanupMatcher at h
  split at h
  · simp only [] at h
    split_ifs at h
    simp only [Option.some.injEq] at h
    exact h ▸ List.drop_suffix _ _
  · cases h

/-- The remainder after the last split occurrence is a suffix. -/
theorem splitTailGo_suffix (needle : List Char) :
    ∀ (fuel : Nat) (s r : List Char),
      splitTailGo needle fuel s = some r → r <:+ s := by
  intro fuel
  induction fuel with
  | zero => intro s r h; cases h
  | succ f ih =>
    intro s r h
    unfold splitTailGo at h
    split_ifs at h with hpre
    · simp only [] at h
      split at h
      · next t hrec =>
          simp only [Option.some.injEq] at h
          exact h ▸ (ih _ t hrec).trans (List.drop_suffix _ s)
      · simp only [Option.some.injEq] at h
        exact h ▸ List.drop_suffix _ s
    · split at h
      · cases h
      · rename_i c0 tl
        exact (ih tl r h).trans (List.suffix_cons c0 tl)

/-- Stripping keeps only characters of the input. -/
theorem pyStripL_subset (l : List Char) (c : Char) (h : c ∈ pyStripL l) :
    c ∈ l := by
  unfold pyStripL at h
  rw [List.mem_reverse] at h
  have h2 := (List.dropWhile_suffix pyWsChar).sublist.subset h
  rw [List.mem_reverse] at h2
  exact (List.dropWhile_suffix pyWsChar).sublist.subset h2

/-- A field substitution only deletes characters. -/
theorem fieldSub_mem (p : List (List Char) × Bool) (s : List Char) (c : Char)
    (h : c ∈ fieldSub p s) : c ∈ s := by
  rcases reSub_mem _ []
      (fun pc s2 r hr => fieldMatcher_suffix p.1 p.2 s2 r hr) s c h with h1 | h1
  · exact h1
  · cases h1

/-- Folded field substitutions only delete characters. -/
theorem fieldPhase_foldl_mem :
    ∀ (ps : List (List (List Char) × Bool)) (s : List Char) (c : Char),
      c ∈ ps.foldl (fun acc p => fieldSub p acc) s → c ∈ s := by
  intro ps
  induction ps with
  | nil => intro s c h; exact h
  | cons p rest ih =>
    intro s c h
    rw [List.foldl_cons] at h
    exact fieldSub_mem p s c (ih (fieldSub p s) c h)

/-- The field phase only deletes characters. -/
theorem fieldPhase_mem (s : List Char) (c : Char) (h : c ∈ fieldPhase s) :
    c ∈ s := fieldPhase_foldl_mem structured_fields s c h

/-- A colon surviving the title-removal step was already present. -/
theorem previewTitleStep_colon (pd : PMap) (m2 : List Char)
    (h : ':' ∈ previewTitleStep pd m2) : ':' ∈ m2 := by
  unfold previewTitleStep at h
  split at h
  · split_ifs at h
    · rcases reSub_mem (titleMatcher _) ['\n'] (titleMatcher_suffix _) m2 ':' h
        with h1 | h1
      · exact h1
      · simp at h1
    · exact h
  · exact h

/-- The body-split step keeps only characters of its input. -/
theorem previewBodyStep_mem (pd : PMap) (mt : List Char) (c : Char)
    (h : c ∈ previewBodyStep pd mt) : c ∈ mt := by
  unfold previewBodyStep at h
  split at h
  · split_ifs at h
    · split at h
      · next tail heq =>
          unfold lastSplitPart at heq
          exact (splitTailGo_suffix _ _ mt tail heq).sublist.subset h
      · exact h
    · exact h
  · exact h

/-- A colon surviving the preview phase was already present. -/
theorem previewPhase_colon (p : Option PMap) (m2 : List Char)
    (h : ':' ∈ previewPhase p m2) : ':' ∈ m2 := by
  unfold previewPhase at h
  split at h
  · next pd =>
      split_ifs at h
      · exact previewTitleStep_colon pd m2
          (previewBodyStep_mem pd _ ':' h)
      · exact h
  · exact h

/-- A colon surviving the whole cleaning pipeline was already present in the
original message: every substitution only deletes text or inserts newlines,
and the body split keeps a suffix. -/
theorem sanitizePipeline_colon (p : Option PMap) (orig : List Char)
    (h : ':' ∈ sanitizePipeline p orig) : ':' ∈ orig := by
  unfold sanitizePipeline at h
  have h5 := pyStripL_subset _ ':' h
  have h4 : ':' ∈ reSub headerMatcher []
      (previewPhase p (reSub bulletMatcher [] (fieldPhase orig))) := by
    rcases reSub_mem cleanupMatcher ['\n', '\n'] cleanupMatcher_suffix _ ':' h5
      with h1 | h1
    · exact h1
    · simp at h1
  have h3 : ':' ∈ previewPhase p (reSub bulletMatcher [] (fieldPhase orig)) := by
    rcases reSub_mem headerMatcher [] headerMatcher_suffix _ ':' h4 with h1 | h1
    · exact h1
    · cases h1
  have h2 : ':' ∈ reSub bulletMatcher [] (fieldPhase orig) :=
    previewPhase_colon p _ h3
  have h1 : ':' ∈ fieldPhase orig := by
    rcases reSub_mem bulletMatcher [] bulletMatcher_suffix _ ':' h2 with hx | hx
    · exact hx
    · cases hx
  exact fieldPhase_mem orig ':' h1

/-- C4 (amended): sanitization is not idempotent in general — removals can
splice surrounding text into new `Field:` occurrences (see the
counterexample) — but whenever the inner result contains no colon character,
a second application yields text with no remaining match of any
structured-field pattern (in particular the five line-level patterns for
Issue Type, Title, Description, Requirements and Priority). -/
theorem C4_second_pass_no_field_matches (m mi t : String) (p : Option PMap)
    (h1 : sanitize_chat_message m p = some mi)
    (h2 : ':' ∉ mi.data)
    (h3 : sanitize_chat_message mi p = some t) :
    hasFieldMatch [("issue").data, ("type").data] true t = false
    ∧ hasFieldMatch [("title").data] true t = false
    ∧ hasFieldMatch [("description").data] true t = false
    ∧ hasFieldMatch [("requirements").data] false t = false
    ∧ hasFieldMatch [("priority").data] true t = false := by
  have hct : ':' ∉ t.data := by
    unfold sanitize_chat_message at h3
    split_ifs at h3 with hb hl
    · cases h3
      exact h2
    · simp only [Option.some.injEq] at h3
      subst h3
      exact fun hcol => h2 (sanitizePipeline_colon p mi.data hcol)
  have key : ∀ (ws : List (List Char)) (hv : Bool),
      hasFieldMatch ws hv t = false := by
    intro ws hv
    cases hEq : hasFieldMatch ws hv t
    · rfl
    · exact absurd (hasFieldMatchGo_colon ws hv _ t.data hEq) hct
  exact ⟨key _ _, key _ _, key _ _, key _ _, key _ _⟩

/-- Witness for C4's amended theorem at a colon-free conversational
message. -/
theorem C4_second_pass_witness :
    sanitize_chat_message "hello there" none = some "hello there"
  ∧ ':' ∉ ("hello there").data
  ∧ hasFieldMatch [("title").data] true "hello there" = false := by
  refine ⟨by decide, by decide, ?_⟩
  exact (C4_second_pass_no_field_matches "hello there" "hello there"
    "hello there" none (by decide) (by decide) (by decide)).2.1
